import Mathlib

/-!
Shallow embedding of `src/ChatAI.py` (an M5 Cardputer chat client for the
Gemini API) together with proofs about its conversation store, request
lifecycle, text wrapping and rendering.  Python strings are modelled as
`List Char`; the pixel-width measurer `d.get_total_width` is modelled as an
additive measure generated by an arbitrary per-character width function,
which matches the font-width summation performed by the display driver.
-/

set_option maxRecDepth 10000

namespace ChatAI

/-! ### Data model: conversation turns (the dicts stored in `conversation`) -/

inductive Role where
  | user
  | model
deriving DecidableEq

/-- One entry of the Python `conversation` list:
`{"role": r, "parts": [{"text": t}]}`. -/
structure Turn where
  role : Role
  text : List Char
deriving DecidableEq

/-- `SYSTEM_PROMPT` from line 31 of the source. -/
def SYSTEM_PROMPT : Turn :=
  ⟨.user, "You are a helpful and friendly assistant designed for children aged 10-12, running on very small device M5 CardPuter. Use simple language and explain things clearly. Answer in one short sentense.".toList⟩

/-- `MAX_CONVERSATION_HISTORY` from line 27 of the source. -/
def MAX_CONVERSATION_HISTORY : Nat := 5

/-- The placeholder `bot_response_entry = {"role": "model", "parts": [{"text": ""}]}`
appended at line 176 before the transport call. -/
def pendingTurn : Turn := ⟨.model, []⟩

/-! ### JSON values (for the parsed response body) -/

/-- A JSON value, used to model `json.loads(r.content)`. -/
inductive JVal where
  | null
  | jb (b : Bool)
  | jn (n : Int)
  | js (s : List Char)
  | jarr (elems : List JVal)
  | jobj (fields : List (String × JVal))

/-- Dictionary key lookup (`'k' in d` / `d['k']`). -/
def lookupKey (fields : List (String × JVal)) (k : String) : Option JVal :=
  List.lookup k fields

/-- The schema validation and extraction of lines 215–221 of the source:
`'candidates' in data and len(data['candidates']) > 0 and 'content' in
data['candidates'][0] and 'parts' in ... and len(parts) > 0 and 'text' in
parts[0]`, returning `candidates[0].content.parts[0].text` when it all holds.
The model assumes the response is well-typed JSON per the wire contract
(each checked field a dict/array/string as appropriate). -/
def extractText (data : JVal) : Option (List Char) :=
  match data with
  | .jobj fields =>
    match lookupKey fields "candidates" with
    | some (.jarr (c0 :: _)) =>
      match c0 with
      | .jobj cf =>
        match lookupKey cf "content" with
        | some (.jobj contf) =>
          match lookupKey contf "parts" with
          | some (.jarr (p0 :: _)) =>
            match p0 with
            | .jobj pf =>
              match lookupKey pf "text" with
              | some (.js t) => some t
              | _ => none
            | _ => none
          | _ => none
        | _ => none
      | _ => none
    | _ => none
  | _ => none

/-! ### Request lifecycle (`call_gemini_api`, lines 148–243) -/

/-- Outcome of the transport call `requests.post` (line 194): either a raised
exception (caught at line 238), or a response with a status code, the decoded
body text, and — for the 200 path — the result of `json.loads` on it
(`none` models a `json.JSONDecodeError`). -/
inductive Transport where
  | fail (err : List Char)
  | resp (status : Nat) (raw : List Char) (parsed : Option JVal)

/-- The `payload_contents` built at lines 165–172: the system prompt followed
by `actual_conversation_for_history[max(0, len - MAX*2):]`.  (Nat subtraction
is truncated, which is exactly `max(0, len - 10)`.) -/
def payload_contents (conversation : List Turn) : List Turn :=
  let actual := conversation.filter (· ≠ SYSTEM_PROMPT)
  SYSTEM_PROMPT :: actual.drop (actual.length - MAX_CONVERSATION_HISTORY * 2)

/-- The error message built at lines 197–200: `"HTTP Error: {status}"`,
with ` - ` plus the first 50 characters of the body appended when the body
is nonempty. -/
def httpErrorMessage (status : Nat) (raw : List Char) : List Char :=
  "HTTP Error: ".toList ++ (toString status).toList ++
    (if raw.isEmpty then [] else " - ".toList ++ raw.take 50)

/-- Observable outcome of one `call_gemini_api` run: the conversation list
afterwards, the error notification (`ov.error`) if any, whether the success
beep (`b.play`) fired, and the payload contents sent (none if aborted before
sending). -/
structure ApiOutcome where
  conversation : List Turn
  notif : Option (List Char)
  beeped : Bool
  payload : Option (List Turn)
deriving DecidableEq

/-- `call_gemini_api` (lines 148–243).  `connected` is
`network.WLAN(...).isconnected()`, `reconnected` the result of the
`connect_wifi()` retry; `tr` the transport outcome.  Mirrors the source:
payload built from `conversation` *before* the pending placeholder is
appended; the placeholder is popped on the HTTP-error path (line 207) and on
the exception path (line 243), filled in place on success (line 222), and —
as in the source — *not* popped on the two parse-failure paths. -/
def call_gemini_api (connected reconnected : Bool) (tr : Transport)
    (conversation : List Turn) : ApiOutcome :=
  if !connected && !reconnected then
    ⟨conversation, some "API: No network!".toList, false, none⟩
  else
    let payload := payload_contents conversation
    let conv1 := conversation ++ [pendingTurn]
    match tr with
    | .fail e =>
        ⟨conv1.dropLast, some ("Request Fail: ".toList ++ e), false, some payload⟩
    | .resp status raw parsed =>
      if status ≠ 200 then
        ⟨conv1.dropLast, some (httpErrorMessage status raw), false, some payload⟩
      else
        match parsed with
        | none => ⟨conv1, some "JSON Parse Error".toList, false, some payload⟩
        | some data =>
          match extractText data with
          | some t => ⟨conv1.dropLast ++ [⟨.model, t⟩], none, true, some payload⟩
          | none => ⟨conv1, some "Bad API Response".toList, false, some payload⟩

/-! ### Control loop (`main`, lines 267–298) -/

structure LoopState where
  conversation : List Turn
  shouldPrompt : Bool
deriving DecidableEq

/-- One pass through the `if should_prompt_next:` block of the main loop
(lines 268–285).  `input` is the result of `ov.text_entry("")`: `none` for
ESC, `some s` for submitted text.  Returns the new state and whether a
request was dispatched (`call_gemini_api` invoked). -/
def mainStep (connected reconnected : Bool) (tr : Transport)
    (input : Option (List Char)) (st : LoopState) : LoopState × Bool :=
  if st.shouldPrompt then
    match input with
    | none => (⟨st.conversation, false⟩, false)
    | some s =>
      if s.isEmpty then (⟨st.conversation, true⟩, false)
      else
        let out := call_gemini_api connected reconnected tr
          (st.conversation ++ [⟨.user, s⟩])
        (⟨out.conversation, true⟩, true)
  else (st, false)

/-! ### Text layout engine (`wrap_text`, lines 89–117)

Python strings are `List Char`; `d.get_total_width` is the sum of arbitrary
per-character pixel widths. -/

/-- The display driver's `get_total_width`: total pixel width of a string,
i.e. the sum of the individual character widths `cw`. -/
def get_total_width (cw : Char → Nat) (s : List Char) : Nat := (s.map cw).sum

/-- Split a character list at every character satisfying `p`, keeping empty
segments — the semantics of Python's `str.split(sep)` for one-char `sep`
(when `p` tests for that separator). -/
def splitOnP (p : Char → Bool) : List Char → List (List Char)
  | [] => [[]]
  | c :: rest =>
    if p c then [] :: splitOnP p rest
    else (c :: (splitOnP p rest).headI) :: (splitOnP p rest).tail

/-- `text.split(' ')` at line 95. -/
def splitSp (l : List Char) : List (List Char) := splitOnP (· == ' ') l

/-- The whitespace class of Python's `str.strip()` / `str.split()`
(MicroPython's `" \t\n\r\v\f"`: space, tab, LF, CR, vertical tab, form
feed). -/
def pythonWS (c : Char) : Bool :=
  c == ' ' || c == '\t' || c == '\n' || c == '\r' ||
    c == '\x0b' || c == '\x0c'

/-- Python's `str.strip()`: drop whitespace from both ends. -/
def strip (l : List Char) : List Char :=
  ((l.dropWhile pythonWS).reverse.dropWhile pythonWS).reverse

/-- The `for char in word` loop of lines 100–107: split an over-wide word
into maximal chunks that fit, threading the accumulator `temp_word_part`
and returning the list of emitted chunks. -/
def charSplitGo (cw : Char → Nat) (width : Nat) (temp : List Char) :
    List Char → List (List Char)
  | [] => if temp.isEmpty then [] else [temp]
  | c :: cs =>
    if get_total_width cw (temp ++ [c]) ≤ width then
      charSplitGo cw width (temp ++ [c]) cs
    else
      (if temp.isEmpty then [] else [temp]) ++ charSplitGo cw width [c] cs

/-- The `for word in text_str.split(' ')` loop of lines 95–116, threading
`current_line`; the trailing flush of line 116 happens in the `[]` case. -/
def wrapGo (cw : Char → Nat) (width : Nat) (current_line : List Char) :
    List (List Char) → List (List Char)
  | [] => if current_line.isEmpty then [] else [strip current_line]
  | word :: rest =>
    if width < get_total_width cw word then
      charSplitGo cw width [] word ++ wrapGo cw width [] rest
    else if get_total_width cw (if current_line.isEmpty then word
        else current_line ++ ' ' :: word) ≤ width then
      wrapGo cw width (if current_line.isEmpty then word
        else current_line ++ ' ' :: word) rest
    else (if current_line.isEmpty then [] else [strip current_line]) ++
      wrapGo cw width word rest

/-- `wrap_text(text, width)` (lines 89–117), with the measurer explicit. -/
def wrap_text (cw : Char → Nat) (width : Nat) (text : List Char) :
    List (List Char) :=
  wrapGo cw width [] (splitSp text)

/-- Join lines with single spaces (the reconstruction operation of the
testable property). -/
def joinSp : List (List Char) → List Char
  | [] => []
  | [l] => l
  | l :: l2 :: ls => l ++ ' ' :: joinSp (l2 :: ls)

/-- Split on whitespace keeping empty segments. -/
def splitWS (l : List Char) : List (List Char) := splitOnP pythonWS l

/-- Python's `str.split()` with no argument: the whitespace-separated token
sequence (empty tokens dropped). -/
def wordsWS (l : List Char) : List (List Char) :=
  (splitWS l).filter (· ≠ [])

/-- Boolean hypothesis: no token of `text.split(' ')` is wider than the
limit, i.e. no word triggers the character-splitting branch. -/
def noLongTokens (cw : Char → Nat) (width : Nat) (text : List Char) : Bool :=
  (splitSp text).all fun tok => get_total_width cw tok ≤ width

/-- Boolean hypothesis: every whitespace character of the input is a plain
space. -/
def spaceOnlyWS (text : List Char) : Bool :=
  text.all fun c => !pythonWS c || c == ' '

/-! ### Render coordinator (`draw_ui`, lines 119–146) -/

def W : Nat := 240
def H : Nat := 135

/-- One `d.text(line, x, y, color)` call painting a history line. -/
structure DrawCall where
  line : List Char
  x : Int
  y : Int

/-- The `for line in reversed(lines)` loop of lines 140–143: decrement the
cursor, stop before painting into the header, else paint.  Returns the
emitted draw calls and the final cursor. -/
def drawLines : List (List Char) → Int → List DrawCall × Int
  | [], y => ([], y)
  | line :: rest, y =>
    if y - 10 < 14 then ([], y - 10)
    else (⟨line, 2, y - 10⟩ :: (drawLines rest (y - 10)).1,
          (drawLines rest (y - 10)).2)

/-- The `"You: "` / `"Bot: "` tag prepended at line 139. -/
def roleTag : Role → List Char
  | .user => "You: ".toList
  | .model => "Bot: ".toList

/-- The `for entry in reversed(display_conversation)` loop of lines 131–144
(the turn list is passed newest-first), including the outer
`if y < 14: break` of line 144. -/
def draw_history (cw : Char → Nat) : List Turn → Int → List DrawCall
  | [], _ => []
  | t :: rest, y =>
    if (drawLines (wrap_text cw (W - 4) (roleTag t.role ++ t.text)).reverse
          y).2 < 14 then
      (drawLines (wrap_text cw (W - 4) (roleTag t.role ++ t.text)).reverse y).1
    else
      (drawLines (wrap_text cw (W - 4) (roleTag t.role ++ t.text)).reverse
          y).1 ++
        draw_history cw rest
          (drawLines (wrap_text cw (W - 4) (roleTag t.role ++ t.text)).reverse
            y).2

/-- The history-painting part of `draw_ui` (lines 126–144): cursor starts at
`H - 4`, turns are painted newest-first after filtering out any entry equal
to `SYSTEM_PROMPT` (line 129). -/
def draw_ui (cw : Char → Nat) (conversation : List Turn) : List DrawCall :=
  draw_history cw (conversation.filter (· ≠ SYSTEM_PROMPT)).reverse
    ((H : Int) - 4)

/-! ### Generic helpers used by the statements -/

/-- `s` occurs contiguously inside `m`. -/
def seqContains (m s : List Char) : Prop := ∃ p q, m = p ++ (s ++ q)

/-- Boolean form of "no pending (empty-text, role=model) turn in the list". -/
def noPending (l : List Turn) : Bool :=
  l.all fun t => !(decide (t.role = Role.model) && t.text.isEmpty)

/-! ### Concrete fixtures -/

/-- The conversation after the user submits `"Hello"` on empty history. -/
def conv_hello : List Turn := [⟨.user, "Hello".toList⟩]

/-- The conversation after the user submits `"Hi"` on empty history. -/
def conv_hi : List Turn := [⟨.user, "Hi".toList⟩]

/-- A well-formed success body holding `candidates[0].content.parts[0].text
= "Hi there!"`. -/
def body_hi : JVal :=
  .jobj [("candidates", .jarr [.jobj [("content",
    .jobj [("parts", .jarr [.jobj [("text", .js "Hi there!".toList)]])])]])]

/-- A 200 body that fails schema validation: missing `candidates`. -/
def missing_candidates_body : JVal := .jobj []

/-- A 200 body that fails schema validation: missing `parts`. -/
def missing_parts_body : JVal :=
  .jobj [("candidates", .jarr [.jobj [("content", .jobj [])]])]

/-- Twelve stored turns (6 user/model pairs), none pending. -/
def conv_twelve : List Turn :=
  [⟨.user, "u1".toList⟩, ⟨.model, "m1".toList⟩, ⟨.user, "u2".toList⟩,
   ⟨.model, "m2".toList⟩, ⟨.user, "u3".toList⟩, ⟨.model, "m3".toList⟩,
   ⟨.user, "u4".toList⟩, ⟨.model, "m4".toList⟩, ⟨.user, "u5".toList⟩,
   ⟨.model, "m5".toList⟩, ⟨.user, "u6".toList⟩, ⟨.model, "m6".toList⟩]

/-! ### Lemmas about splitting, joining and stripping -/

theorem splitOnP_ne_nil (p : Char → Bool) (l : List Char) :
    splitOnP p l ≠ [] := by
  cases l with
  | nil => simp [splitOnP]
  | cons c rest => by_cases hc : p c <;> simp [splitOnP, hc]

theorem splitOnP_append (p : Char → Bool) {c : Char} (hc : p c = true)
    (xs ys : List Char) :
    splitOnP p (xs ++ c :: ys) = splitOnP p xs ++ splitOnP p ys := by
  induction xs with
  | nil => simp [splitOnP, hc]
  | cons x xs ih =>
    obtain ⟨u, us, hu⟩ := List.exists_cons_of_ne_nil (splitOnP_ne_nil p xs)
    by_cases hx : p x
    · simp [splitOnP, hx, ih]
    · rw [List.cons_append, splitOnP, splitOnP, if_neg hx, if_neg hx, ih, hu]
      simp

theorem wordsWS_nil : wordsWS [] = [] := rfl

theorem wordsWS_append {c : Char} (hc : pythonWS c = true)
    (xs ys : List Char) :
    wordsWS (xs ++ c :: ys) = wordsWS xs ++ wordsWS ys := by
  rw [wordsWS, wordsWS, wordsWS, splitWS, splitWS, splitWS,
    splitOnP_append pythonWS hc, List.filter_append]

theorem wordsWS_cons_ws {c : Char} (hc : pythonWS c = true) (l : List Char) :
    wordsWS (c :: l) = wordsWS l := by
  have h := wordsWS_append hc [] l
  simpa [wordsWS_nil] using h

theorem wordsWS_all_ws (l : List Char) (h : ∀ c ∈ l, pythonWS c = true) :
    wordsWS l = [] := by
  induction l with
  | nil => rfl
  | cons c rest ih =>
    rw [wordsWS_cons_ws (h c (by simp))]
    exact ih fun c hc => h c (List.mem_cons_of_mem _ hc)

theorem wordsWS_append_right_ws (l t : List Char)
    (h : ∀ c ∈ t, pythonWS c = true) :
    wordsWS (l ++ t) = wordsWS l := by
  cases t with
  | nil => rw [List.append_nil]
  | cons c t' =>
    rw [wordsWS_append (h c (by simp)) l t',
      wordsWS_all_ws t' fun c hc => h c (List.mem_cons_of_mem _ hc),
      List.append_nil]

theorem wordsWS_append_left_ws (t l : List Char)
    (h : ∀ c ∈ t, pythonWS c = true) :
    wordsWS (t ++ l) = wordsWS l := by
  induction t with
  | nil => rfl
  | cons c t' ih =>
    rw [List.cons_append, wordsWS_cons_ws (h c (by simp))]
    exact ih fun c hc => h c (List.mem_cons_of_mem _ hc)

/-- Stripping boundary whitespace does not change the whitespace-split token
sequence. -/
theorem wordsWS_strip (l : List Char) : wordsWS (strip l) = wordsWS l := by
  have h1 : wordsWS l = wordsWS (l.dropWhile pythonWS) := by
    conv_lhs => rw [← List.takeWhile_append_dropWhile pythonWS l]
    exact wordsWS_append_left_ws _ _ fun c hc => List.mem_takeWhile_imp hc
  have hA : l.dropWhile pythonWS
      = strip l ++
        ((l.dropWhile pythonWS).reverse.takeWhile pythonWS).reverse := by
    conv_lhs => rw [← List.reverse_reverse (l.dropWhile pythonWS)]
    conv_lhs => rw [← List.takeWhile_append_dropWhile pythonWS
      (l.dropWhile pythonWS).reverse]
    rw [List.reverse_append]
    rfl
  rw [h1, hA, wordsWS_append_right_ws]
  intro c hc
  rw [List.mem_reverse] at hc
  exact List.mem_takeWhile_imp hc

theorem joinSp_wordsWS_cons (a : List Char) (ls : List (List Char)) :
    wordsWS (joinSp (a :: ls)) = wordsWS a ++ wordsWS (joinSp ls) := by
  cases ls with
  | nil => simp [joinSp, wordsWS_nil]
  | cons b ls' =>
    rw [joinSp]
    exact wordsWS_append (by decide) a (joinSp (b :: ls'))

theorem wordsWS_joinSp (L : List (List Char)) :
    wordsWS (joinSp L) = (L.map wordsWS).flatten := by
  induction L with
  | nil => simp [joinSp, wordsWS_nil]
  | cons a ls ih => rw [joinSp_wordsWS_cons, ih]; simp

theorem joinSp_cons_head (c : Char) (w : List Char)
    (ws' : List (List Char)) :
    joinSp ((c :: w) :: ws') = c :: joinSp (w :: ws') := by
  cases ws' with
  | nil => rfl
  | cons x xs => simp [joinSp]

/-- Splitting on spaces and re-joining with single spaces is the
identity. -/
theorem joinSp_splitSp (l : List Char) : joinSp (splitSp l) = l := by
  induction l with
  | nil => rfl
  | cons c rest ih =>
    have hne : splitSp rest ≠ [] := splitOnP_ne_nil _ rest
    obtain ⟨w, ws', hw⟩ := List.exists_cons_of_ne_nil hne
    by_cases hc : c = ' '
    · subst hc
      rw [splitSp, splitOnP, if_pos (by simp), ← splitSp]
      rw [hw, show joinSp ([] :: w :: ws') = ' ' :: joinSp (w :: ws') from rfl,
        ← hw, ih]
    · rw [splitSp, splitOnP, if_neg (by simpa using hc), ← splitSp, hw]
      simp only [List.headI_cons, List.tail_cons]
      rw [joinSp_cons_head, ← hw, ih]

/-! ### Lemmas: reconstruction (greedy wrapping loses no token) -/

/-- When no word overflows the limit (no character-splitting happens),
the wrapping loop preserves the whitespace-token sequence: the tokens of
the joined output are those of the pending line followed by those of the
remaining words. -/
theorem wrapGo_reconstruct (cw : Char → Nat) (width : Nat)
    (words : List (List Char)) :
    ∀ current_line : List Char,
      (∀ word ∈ words, get_total_width cw word ≤ width) →
      wordsWS (joinSp (wrapGo cw width current_line words))
        = wordsWS current_line ++ (words.map wordsWS).flatten := by
  induction words with
  | nil =>
    intro cur _
    rw [wrapGo]
    by_cases hcur : cur.isEmpty
    · rw [if_pos hcur, List.isEmpty_iff.mp hcur]
      simp [joinSp, wordsWS_nil]
    · rw [if_neg hcur]
      simp [joinSp, wordsWS_strip]
  | cons word rest ih =>
    intro cur hw
    have hword : get_total_width cw word ≤ width := hw word (by simp)
    have hrest : ∀ w ∈ rest, get_total_width cw w ≤ width :=
      fun w hw2 => hw w (List.mem_cons_of_mem _ hw2)
    rw [wrapGo, if_neg (by omega)]
    by_cases hcur : cur.isEmpty
    · rw [List.isEmpty_iff.mp hcur]
      have hinner : (if ([] : List Char).isEmpty then word
          else [] ++ ' ' :: word) = word := by simp
      rw [hinner, if_pos hword, ih word hrest]
      simp [wordsWS_nil]
    · simp only [if_neg hcur]
      by_cases hfits : get_total_width cw (cur ++ ' ' :: word) ≤ width
      · rw [if_pos hfits, ih _ hrest, wordsWS_append (by decide)]
        simp
      · rw [if_neg hfits, List.singleton_append, joinSp_wordsWS_cons,
          wordsWS_strip, ih word hrest]
        simp

/-- The reconstruction property at the top level, shared by C3 and C4. -/
theorem wrap_text_reconstruct_aux (cw : Char → Nat) (width : Nat)
    (text : List Char) (h : noLongTokens cw width text = true) :
    wordsWS (joinSp (wrap_text cw width text)) = wordsWS text := by
  rw [noLongTokens, List.all_eq_true] at h
  rw [wrap_text, wrapGo_reconstruct cw width (splitSp text) []
    (fun w hw => by simpa using h w hw)]
  rw [wordsWS_nil, List.nil_append, ← wordsWS_joinSp, joinSp_splitSp]

/-! ### Lemmas: line width bounds -/

/-- Stripping yields a sublist. -/
theorem strip_sublist (l : List Char) : List.Sublist (strip l) l := by
  have h1 : List.Sublist (l.dropWhile pythonWS) l := List.dropWhile_sublist _
  have h2 : List.Sublist ((l.dropWhile pythonWS).reverse.dropWhile pythonWS)
      (l.dropWhile pythonWS).reverse := List.dropWhile_sublist _
  have h3 := h2.reverse
  rw [List.reverse_reverse] at h3
  exact h3.trans h1

/-- The measure is monotone along sublists (character widths are
nonnegative). -/
theorem get_total_width_sublist_le (cw : Char → Nat) {l1 l2 : List Char}
    (h : List.Sublist l1 l2) :
    get_total_width cw l1 ≤ get_total_width cw l2 :=
  (h.map cw).sum_le_sum (by simp)

/-- Every chunk emitted by the character-splitting loop either fits the
limit or is a single over-wide character, provided the incoming accumulator
does. -/
theorem charSplitGo_width (cw : Char → Nat) (width : Nat)
    (word : List Char) :
    ∀ temp : List Char,
      (get_total_width cw temp ≤ width ∨
        (temp.length = 1 ∧ width < get_total_width cw temp)) →
      ∀ line ∈ charSplitGo cw width temp word,
        get_total_width cw line ≤ width ∨
          (line.length = 1 ∧ width < get_total_width cw line) := by
  induction word with
  | nil =>
    intro temp htemp line hline
    rw [charSplitGo] at hline
    by_cases h : temp.isEmpty
    · rw [if_pos h] at hline
      simp at hline
    · rw [if_neg h] at hline
      simp at hline
      subst hline
      exact htemp
  | cons c cs ih =>
    intro temp htemp line hline
    rw [charSplitGo] at hline
    by_cases hfit : get_total_width cw (temp ++ [c]) ≤ width
    · rw [if_pos hfit] at hline
      exact ih (temp ++ [c]) (Or.inl hfit) line hline
    · rw [if_neg hfit] at hline
      rcases List.mem_append.mp hline with h1 | h2
      · by_cases h : temp.isEmpty
        · rw [if_pos h] at h1
          simp at h1
        · rw [if_neg h] at h1
          simp at h1
          subst h1
          exact htemp
      · refine ih [c] ?_ line h2
        by_cases hc : get_total_width cw [c] ≤ width
        · exact Or.inl hc
        · exact Or.inr ⟨rfl, by omega⟩

/-- Every line emitted by the word loop either fits the limit or is a
single over-wide character, provided the pending line fits. -/
theorem wrapGo_width (cw : Char → Nat) (width : Nat)
    (words : List (List Char)) :
    ∀ cur : List Char, get_total_width cw cur ≤ width →
      ∀ line ∈ wrapGo cw width cur words,
        get_total_width cw line ≤ width ∨
          (line.length = 1 ∧ width < get_total_width cw line) := by
  induction words with
  | nil =>
    intro cur hcur line hline
    rw [wrapGo] at hline
    by_cases h : cur.isEmpty
    · rw [if_pos h] at hline
      simp at hline
    · rw [if_neg h] at hline
      simp at hline
      subst hline
      exact Or.inl
        ((get_total_width_sublist_le cw (strip_sublist cur)).trans hcur)
  | cons word rest ih =>
    intro cur hcur line hline
    rw [wrapGo] at hline
    by_cases hlong : width < get_total_width cw word
    · rw [if_pos hlong] at hline
      rcases List.mem_append.mp hline with h1 | h2
      · exact charSplitGo_width cw width word []
          (Or.inl (by simp [get_total_width])) line h1
      · exact ih [] (by simp [get_total_width]) line h2
    · rw [if_neg hlong] at hline
      by_cases hfits : get_total_width cw
          (if cur.isEmpty then word else cur ++ ' ' :: word) ≤ width
      · rw [if_pos hfits] at hline
        exact ih _ hfits line hline
      · rw [if_neg hfits] at hline
        rcases List.mem_append.mp hline with h1 | h2
        · by_cases h : cur.isEmpty
          · rw [if_pos h] at h1
            simp at h1
          · rw [if_neg h] at h1
            simp at h1
            subst h1
            exact Or.inl
              ((get_total_width_sublist_le cw (strip_sublist cur)).trans hcur)
        · exact ih word (by omega) line h2

/-! ### Lemmas: no empty lines (for space-only whitespace) -/

/-- Characters of a split segment come from the input and are not
separators. -/
theorem splitOnP_mem (p : Char → Bool) (l : List Char) :
    ∀ w ∈ splitOnP p l, ∀ c ∈ w, c ∈ l ∧ p c = false := by
  induction l with
  | nil =>
    intro w hw c hc
    simp [splitOnP] at hw
    subst hw
    simp at hc
  | cons a rest ih =>
    intro w hw c hc
    obtain ⟨w0, ws0, hrest⟩ :=
      List.exists_cons_of_ne_nil (splitOnP_ne_nil p rest)
    rw [splitOnP] at hw
    by_cases ha : p a
    · rw [if_pos ha] at hw
      rcases List.mem_cons.mp hw with rfl | hw2
      · simp at hc
      · have h := ih w hw2 c hc
        exact ⟨List.mem_cons_of_mem _ h.1, h.2⟩
    · rw [if_neg ha, hrest] at hw
      simp only [List.headI_cons, List.tail_cons] at hw
      rcases List.mem_cons.mp hw with rfl | hw2
      · rcases List.mem_cons.mp hc with rfl | hc2
        · exact ⟨List.mem_cons_self _ _, by simpa using ha⟩
        · have h := ih w0 (by rw [hrest]; exact List.mem_cons_self _ _) c hc2
          exact ⟨List.mem_cons_of_mem _ h.1, h.2⟩
      · have h := ih w (by rw [hrest]; exact List.mem_cons_of_mem _ hw2) c hc
        exact ⟨List.mem_cons_of_mem _ h.1, h.2⟩

/-- Under the space-only-whitespace proviso, no character of any token of
`split(' ')` is whitespace. -/
theorem splitSp_no_ws (text : List Char) (hsp : spaceOnlyWS text = true) :
    ∀ word ∈ splitSp text, ∀ c ∈ word, pythonWS c = false := by
  intro word hword c hc
  have h := splitOnP_mem (· == ' ') text word hword c hc
  rw [spaceOnlyWS, List.all_eq_true] at hsp
  have h2 : (!pythonWS c || (c == ' ')) = true := hsp c h.1
  rcases (Bool.or_eq_true _ _).mp h2 with h3 | h3
  · simpa using h3
  · have h4 : (c == ' ') = false := h.2
    rw [h4] at h3
    exact absurd h3 (by simp)

/-- Chunks emitted by the character-splitting loop are never empty. -/
theorem charSplitGo_ne_nil (cw : Char → Nat) (width : Nat)
    (word : List Char) :
    ∀ temp, ∀ line ∈ charSplitGo cw width temp word, line ≠ [] := by
  induction word with
  | nil =>
    intro temp line hline
    rw [charSplitGo] at hline
    by_cases h : temp.isEmpty
    · rw [if_pos h] at hline
      simp at hline
    · rw [if_neg h] at hline
      simp at hline
      subst hline
      simpa [List.isEmpty_iff] using h
  | cons c cs ih =>
    intro temp line hline
    rw [charSplitGo] at hline
    by_cases hfit : get_total_width cw (temp ++ [c]) ≤ width
    · exact ih _ line (by rwa [if_pos hfit] at hline)
    · rw [if_neg hfit] at hline
      rcases List.mem_append.mp hline with h1 | h2
      · by_cases h : temp.isEmpty
        · rw [if_pos h] at h1
          simp at h1
        · rw [if_neg h] at h1
          simp at h1
          subst h1
          simpa [List.isEmpty_iff] using h
      · exact ih [c] line h2

/-- Stripping a list whose head is not whitespace yields a nonempty
list. -/
theorem strip_ne_nil {c : Char} (cs : List Char) (hc : pythonWS c = false) :
    strip (c :: cs) ≠ [] := by
  intro hstrip
  rw [strip, List.dropWhile_cons, hc] at hstrip
  simp only [Bool.false_eq_true, if_false, List.reverse_eq_nil_iff,
    List.dropWhile_eq_nil_iff] at hstrip
  have := hstrip c (by simp)
  rw [this] at hc
  exact absurd hc (by simp)

/-- Under the space-only proviso, every line emitted by the word loop is
nonempty (the pending line is empty or starts with a non-whitespace
character). -/
theorem wrapGo_ne_nil (cw : Char → Nat) (width : Nat)
    (words : List (List Char)) :
    (∀ word ∈ words, ∀ c ∈ word, pythonWS c = false) →
    ∀ cur : List Char,
      (cur = [] ∨ ∃ c cs, cur = c :: cs ∧ pythonWS c = false) →
      ∀ line ∈ wrapGo cw width cur words, line ≠ [] := by
  induction words with
  | nil =>
    intro _ cur hcur line hline
    rw [wrapGo] at hline
    by_cases h : cur.isEmpty
    · rw [if_pos h] at hline
      simp at hline
    · rw [if_neg h] at hline
      simp at hline
      subst hline
      rcases hcur with rfl | ⟨c, cs, rfl, hc⟩
      · simp at h
      · exact strip_ne_nil cs hc
  | cons word rest ih =>
    intro hwords cur hcur line hline
    have hw : ∀ c ∈ word, pythonWS c = false := hwords word (by simp)
    have hr : ∀ w ∈ rest, ∀ c ∈ w, pythonWS c = false :=
      fun w h2 => hwords w (List.mem_cons_of_mem _ h2)
    rw [wrapGo] at hline
    by_cases hlong : width < get_total_width cw word
    · rw [if_pos hlong] at hline
      rcases List.mem_append.mp hline with h1 | h2
      · exact charSplitGo_ne_nil cw width word [] line h1
      · exact ih hr [] (Or.inl rfl) line h2
    · rw [if_neg hlong] at hline
      by_cases hfits : get_total_width cw
          (if cur.isEmpty then word else cur ++ ' ' :: word) ≤ width
      · rw [if_pos hfits] at hline
        refine ih hr _ ?_ line hline
        by_cases h : cur.isEmpty
        · rw [if_pos h]
          cases word with
          | nil => exact Or.inl rfl
          | cons c cs => exact Or.inr ⟨c, cs, rfl, hw c (by simp)⟩
        · rw [if_neg h]
          rcases hcur with rfl | ⟨c, cs, rfl, hc⟩
          · simp at h
          · exact Or.inr ⟨c, cs ++ ' ' :: word, rfl, hc⟩
      · rw [if_neg hfits] at hline
        rcases List.mem_append.mp hline with h1 | h2
        · by_cases h : cur.isEmpty
          · rw [if_pos h] at h1
            simp at h1
          · rw [if_neg h] at h1
            simp at h1
            subst h1
            rcases hcur with rfl | ⟨c, cs, rfl, hc⟩
            · simp at h
            · exact strip_ne_nil cs hc
        · refine ih hr word ?_ line h2
          cases word with
          | nil => exact Or.inl rfl
          | cons c cs => exact Or.inr ⟨c, cs, rfl, hw c (by simp)⟩

/-! ### Claim theorems -/

/-- C1: the claim says the ParseError path (status 200, schema validation
failure) performs the same rollback as HttpError.  The code does not: at the
failing input (history `[user "Hello"]`, transport 200 with body `{}`,
missing `candidates`) the distinct message "Bad API Response" is shown, but
the pending empty Model turn is NOT removed — the store's turn count is one
more than immediately before the pending turn was appended, contradicting
the claimed rollback.  (The pop of line 207 has no counterpart in the
branches at lines 225–234.) -/
theorem parse_error_leaves_pending_turn :
    (call_gemini_api true true (.resp 200 [] (some missing_candidates_body))
        conv_hello).notif = some "Bad API Response".toList ∧
    (call_gemini_api true true (.resp 200 [] (some missing_candidates_body))
        conv_hello).conversation = conv_hello ++ [pendingTurn] ∧
    (call_gemini_api true true (.resp 200 [] (some missing_candidates_body))
        conv_hello).conversation.length ≠ conv_hello.length := by
  refine ⟨rfl, rfl, by decide⟩

/-- C2: the claim's invariant "after any terminal state the store never
holds a lingering empty turn" is violated by the code on the ParseError
terminal state: with history `[user "Hi"]` and a 200 response missing
`parts`, the handler returns with the empty-text Model placeholder still in
the store (and it would no longer be last once the next user turn is
appended, breaking the at-most-one-pending discipline for the next
request). -/
theorem pending_turn_lingers_after_parse_error :
    pendingTurn ∈ (call_gemini_api true true
        (.resp 200 [] (some missing_parts_body)) conv_hi).conversation ∧
    (call_gemini_api true true (.resp 200 [] (some missing_parts_body))
        conv_hi).conversation = conv_hi ++ [pendingTurn] ∧
    noPending (call_gemini_api true true
        (.resp 200 [] (some missing_parts_body)) conv_hi).conversation
      = false := by
  refine ⟨by decide, rfl, by decide⟩

/-- C6: on a non-200 status the pending Model turn is removed (the store
reverts exactly to its pre-request contents), and the notification shown is
`httpErrorMessage`, which contains the status code, truncates the error body
to its 50-character prefix (the message is unchanged by truncating the body
to 50 characters), and has bounded length. -/
theorem http_error_rollback_and_message (rc : Bool) (conversation : List Turn)
    (status : Nat) (raw : List Char) (parsed : Option JVal)
    (h : status ≠ 200) :
    (call_gemini_api true rc (.resp status raw parsed)
        conversation).conversation = conversation ∧
    (call_gemini_api true rc (.resp status raw parsed) conversation).notif
      = some (httpErrorMessage status raw) ∧
    seqContains (httpErrorMessage status raw) (toString status).toList ∧
    httpErrorMessage status raw = httpErrorMessage status (raw.take 50) ∧
    (httpErrorMessage status raw).length ≤ (toString status).length + 65 := by
  refine ⟨?_, ?_, ?_, ?_, ?_⟩
  · simp [call_gemini_api, h]
  · simp [call_gemini_api, h]
  · exact ⟨"HTTP Error: ".toList,
      if raw.isEmpty then [] else " - ".toList ++ raw.take 50,
      by simp [httpErrorMessage]⟩
  · cases raw with
    | nil => rfl
    | cons c cs => simp [httpErrorMessage, List.take_take]
  · have h12 : ("HTTP Error: ".toList).length = 12 := by decide
    have h3 : (" - ".toList).length = 3 := by decide
    have hlen : (toString status).length = (toString status).toList.length := rfl
    have htk : (raw.take 50).length ≤ 50 := List.length_take_le 50 raw
    rw [httpErrorMessage, hlen]
    by_cases hr : raw.isEmpty
    · rw [if_pos hr]
      simp only [List.length_append, List.length_nil]
      omega
    · rw [if_neg hr]
      simp only [List.length_append]
      omega

/-- C7: on status 200 with the full schema present, the pending Model turn
is filled with exactly the extracted text: the handler returns the store
extended by one filled Model turn, no error notification, the success beep,
and the payload assembled from the pre-request store. -/
theorem success_fills_pending_turn (rc : Bool) (conversation : List Turn)
    (raw : List Char) (data : JVal) (t : List Char)
    (h : extractText data = some t) :
    call_gemini_api true rc (.resp 200 raw (some data)) conversation
      = ⟨conversation ++ [⟨.model, t⟩], none, true,
          some (payload_contents conversation)⟩ := by
  simp [call_gemini_api, h]

/-- Witness for C7, end-to-end scenario 1: submitting "Hello" on empty
history sends payload `[persona, user "Hello"]`, and a 200 response with
text "Hi there!" leaves the store holding exactly user "Hello" then model
"Hi there!". -/
theorem success_fills_pending_turn_witness :
    extractText body_hi = some "Hi there!".toList ∧
    call_gemini_api true true (.resp 200 [] (some body_hi)) conv_hello
      = ⟨[⟨.user, "Hello".toList⟩, ⟨.model, "Hi there!".toList⟩], none, true,
          some (payload_contents conv_hello)⟩ ∧
    payload_contents conv_hello = [SYSTEM_PROMPT, ⟨.user, "Hello".toList⟩] := by
  refine ⟨by decide, ?_, by decide⟩
  have h := success_fills_pending_turn true conv_hello [] body_hi
    ("Hi there!".toList) (by decide)
  simpa [conv_hello] using h

/-- Supporting result (not the C5 claim, which quantifies over every log
state): for a conversation log holding no empty-text Model turn, the
assembled payload begins with the constant persona turn, carries at most
`2*K = 10` stored turns, those turns are the most recent ones (a suffix of
the stored log), and the payload contains no pending empty-text Model
turn. -/
theorem payload_contents_bounded (conversation : List Turn)
    (h : noPending conversation = true) :
    (payload_contents conversation).head? = some SYSTEM_PROMPT ∧
    (payload_contents conversation).tail.length
      ≤ MAX_CONVERSATION_HISTORY * 2 ∧
    (payload_contents conversation).tail
      <:+ conversation.filter (· ≠ SYSTEM_PROMPT) ∧
    noPending (payload_contents conversation) = true := by
  have hpc : payload_contents conversation
      = SYSTEM_PROMPT ::
        (conversation.filter (· ≠ SYSTEM_PROMPT)).drop
          ((conversation.filter (· ≠ SYSTEM_PROMPT)).length
            - MAX_CONVERSATION_HISTORY * 2) := rfl
  refine ⟨by rw [hpc]; rfl, ?_, ?_, ?_⟩
  · rw [hpc]
    simp only [List.tail_cons, List.length_drop]
    omega
  · rw [hpc]
    exact List.drop_suffix _ _
  · rw [noPending, List.all_eq_true] at h
    rw [hpc, noPending, List.all_eq_true]
    intro t ht
    rcases List.mem_cons.mp ht with rfl | ht2
    · decide
    · exact h t (List.mem_of_mem_filter (List.mem_of_mem_drop ht2))

/-- End-to-end scenario 2 as an instance of the supporting result: with 12
stored turns and K = 5 the payload is persona plus the last 10 stored
turns. -/
theorem payload_contents_bounded_witness :
    noPending conv_twelve = true ∧
    ((payload_contents conv_twelve).head? = some SYSTEM_PROMPT ∧
     (payload_contents conv_twelve).tail.length
        ≤ MAX_CONVERSATION_HISTORY * 2 ∧
     (payload_contents conv_twelve).tail
        <:+ conv_twelve.filter (· ≠ SYSTEM_PROMPT) ∧
     noPending (payload_contents conv_twelve) = true) :=
  ⟨by decide, payload_contents_bounded conv_twelve (by decide)⟩

/-- C5: the claim says that for every state of the conversation log the
payload never includes a pending empty-text Model turn.  The code violates
this at reachable states: submitting "Hello" on empty history and receiving
200 with body `{}` leaves the ghost empty Model turn in the store (the
C1/C2 missing pop); submitting "More" then dispatches a request whose
payload — assembled at lines 165–172, which filter only entries equal to
`SYSTEM_PROMPT` — includes that empty-text Model turn in the outbound
contents. -/
theorem payload_leaks_pending_turn :
    (mainStep true true (.resp 200 [] (some missing_candidates_body))
        (some "Hello".toList) ⟨[], true⟩).1
      = ⟨[⟨.user, "Hello".toList⟩, pendingTurn], true⟩ ∧
    pendingTurn ∈ payload_contents
      [⟨.user, "Hello".toList⟩, pendingTurn, ⟨.user, "More".toList⟩] ∧
    (call_gemini_api true true (.resp 200 [] (some body_hi))
        [⟨.user, "Hello".toList⟩, pendingTurn, ⟨.user, "More".toList⟩]).payload
      = some [SYSTEM_PROMPT, ⟨.user, "Hello".toList⟩, pendingTurn,
          ⟨.user, "More".toList⟩] := by
  refine ⟨by decide, by decide, by decide⟩

/-- Witness for C6, end-to-end scenario 3: a 503 response rolls the store
back and shows a message containing "503", with the body truncated. -/
theorem http_error_rollback_and_message_witness :
    (503 : Nat) ≠ 200 ∧
    ((call_gemini_api true true
        (.resp 503 "Service Unavailable: model overloaded, try again later, or upgrade".toList none)
        conv_hi).conversation = conv_hi ∧
     (call_gemini_api true true
        (.resp 503 "Service Unavailable: model overloaded, try again later, or upgrade".toList none)
        conv_hi).notif
        = some (httpErrorMessage 503
            "Service Unavailable: model overloaded, try again later, or upgrade".toList) ∧
     seqContains
        (httpErrorMessage 503
          "Service Unavailable: model overloaded, try again later, or upgrade".toList)
        (toString (503 : Nat)).toList ∧
     httpErrorMessage 503
        "Service Unavailable: model overloaded, try again later, or upgrade".toList
        = httpErrorMessage 503
            ("Service Unavailable: model overloaded, try again later, or upgrade".toList.take 50) ∧
     (httpErrorMessage 503
        "Service Unavailable: model overloaded, try again later, or upgrade".toList).length
        ≤ (toString (503 : Nat)).length + 65) :=
  ⟨by decide, http_error_rollback_and_message true conv_hi 503
    "Service Unavailable: model overloaded, try again later, or upgrade".toList
    none (by decide)⟩

/-- Every draw call emitted by the inner line loop targets `y ≥ 14`. -/
theorem drawLines_y_ge (lines : List (List Char)) (y : Int) :
    ∀ call ∈ (drawLines lines y).1, 14 ≤ call.y := by
  induction lines generalizing y with
  | nil => intro call hc; simp [drawLines] at hc
  | cons line rest ih =>
    intro call hc
    rw [drawLines] at hc
    by_cases hy : y - 10 < 14
    · rw [if_pos hy] at hc
      simp at hc
    · rw [if_neg hy] at hc
      rcases List.mem_cons.mp hc with rfl | h2
      · simpa using le_of_not_lt hy
      · exact ih (y - 10) call h2

/-- Every draw call emitted by the outer turn loop targets `y ≥ 14`. -/
theorem draw_history_y_ge (cw : Char → Nat) (turns : List Turn) (y : Int) :
    ∀ call ∈ draw_history cw turns y, 14 ≤ call.y := by
  induction turns generalizing y with
  | nil => intro call hc; simp [draw_history] at hc
  | cons t rest ih =>
    intro call hc
    rw [draw_history] at hc
    by_cases hbrk :
        (drawLines (wrap_text cw (W - 4) (roleTag t.role ++ t.text)).reverse
          y).2 < 14
    · rw [if_pos hbrk] at hc
      exact drawLines_y_ge _ y call hc
    · rw [if_neg hbrk] at hc
      rcases List.mem_append.mp hc with h1 | h2
      · exact drawLines_y_ge _ y call h1
      · exact ih _ call h2

/-- C9: for every conversation state, no history-line draw call emitted by
the render pass targets a y coordinate below 14 — painting stops before the
reserved header region, however many wrapped lines the turns produce. -/
theorem draw_ui_respects_header (cw : Char → Nat) (conversation : List Turn) :
    (draw_ui cw conversation).all (fun call => decide (14 ≤ call.y)) = true := by
  rw [List.all_eq_true]
  intro call hc
  simpa using draw_history_y_ge cw _ _ call hc

/-- C3: for every input, width limit and (additive) measurer under which no
token of the space-split input exceeds the limit — i.e. wherever no word is
character-split — concatenating the returned lines with single spaces
reconstructs the original whitespace-split token sequence exactly: no words
dropped or duplicated. -/
theorem wrap_text_reconstructs_tokens (cw : Char → Nat) (width : Nat)
    (text : List Char) (h : noLongTokens cw width text = true) :
    wordsWS (joinSp (wrap_text cw width text)) = wordsWS text :=
  wrap_text_reconstruct_aux cw width text h

/-- Witness for C3 at a concrete input. -/
theorem wrap_text_reconstructs_tokens_witness :
    noLongTokens (fun _ => 1) 5 "hello to the lean world".toList = true ∧
    wordsWS (joinSp (wrap_text (fun _ => 1) 5
        "hello to the lean world".toList))
      = wordsWS "hello to the lean world".toList :=
  ⟨by decide, wrap_text_reconstructs_tokens (fun _ => 1) 5
    "hello to the lean world".toList (by decide)⟩

/-- Counterexample for C4 as stated: the input `"\t"` (one tab, 1px wide,
limit 10) makes `wrap_text` return the empty string as a line — the token
`"\t"` survives the word loop (a tab is not a split separator and fits the
limit) but `strip()` reduces it to the empty string at the flush of line
116. -/
theorem wrap_text_emits_empty_line :
    wrap_text (fun _ => 1) 10 ['\t'] = [[]] ∧
    [] ∈ wrap_text (fun _ => 1) 10 ['\t'] :=
  ⟨by decide, by decide⟩

/-- C4 (amended): every produced line's measured width is at most the limit
or the line is a single character wider than the limit; empty input yields
the empty sequence; under the no-oversized-word proviso the joined output
reproduces the input's token sequence in order; and — provided every
whitespace character of the input is a plain space — no returned line is
the empty string. -/
theorem wrap_text_line_guarantees (cw : Char → Nat) (width : Nat)
    (text : List Char) :
    ((wrap_text cw width text).all fun line =>
        decide (get_total_width cw line ≤ width) ||
          (decide (line.length = 1) &&
            decide (width < get_total_width cw line))) = true ∧
    wrap_text cw width [] = [] ∧
    (noLongTokens cw width text = true →
      wordsWS (joinSp (wrap_text cw width text)) = wordsWS text) ∧
    (spaceOnlyWS text = true →
      ((wrap_text cw width text).all fun line => !line.isEmpty) = true) := by
  refine ⟨?_, ?_, fun h => wrap_text_reconstruct_aux cw width text h,
    fun hsp => ?_⟩
  · rw [List.all_eq_true]
    intro line hline
    have h := wrapGo_width cw width (splitSp text) []
      (by simp [get_total_width]) line hline
    rcases h with h | ⟨h1, h2⟩
    · simp [h]
    · simp [h1, h2]
  · show wrapGo cw width [] (splitSp []) = []
    rw [show splitSp [] = [[]] from rfl]
    rw [wrapGo, if_neg (by simp [get_total_width])]
    have hinner : (if ([] : List Char).isEmpty then ([] : List Char)
        else [] ++ ' ' :: []) = [] := by simp
    rw [hinner, if_pos (by simp [get_total_width]), wrapGo]
    simp
  · rw [List.all_eq_true]
    intro line hline
    have h := wrapGo_ne_nil cw width (splitSp text) (splitSp_no_ws text hsp)
      [] (Or.inl rfl) line hline
    simpa using h

/-- Witness for C4 at a concrete input satisfying both provisos. -/
theorem wrap_text_line_guarantees_witness :
    noLongTokens (fun _ => 1) 3 "ab cd".toList = true ∧
    spaceOnlyWS "ab cd".toList = true ∧
    ((wrap_text (fun _ => 1) 3 "ab cd".toList).all fun line =>
        decide (get_total_width (fun _ => 1) line ≤ 3) ||
          (decide (line.length = 1) &&
            decide (3 < get_total_width (fun _ => 1) line))) = true ∧
    wrap_text (fun _ => 1) 3 [] = [] ∧
    wordsWS (joinSp (wrap_text (fun _ => 1) 3 "ab cd".toList))
      = wordsWS "ab cd".toList ∧
    ((wrap_text (fun _ => 1) 3 "ab cd".toList).all fun line =>
        !line.isEmpty) = true := by
  have h := wrap_text_line_guarantees (fun _ => 1) 3 "ab cd".toList
  exact ⟨by decide, by decide, h.1, h.2.1, h.2.2.1 (by decide),
    h.2.2.2 (by decide)⟩

/-- C8: if the pre-flight network check fails and reconnection also fails,
the request aborts with the "no network" error before any mutation: the
store is returned unchanged (no pending turn appended, nothing removed) and
no payload is ever assembled or sent. -/
theorem no_network_aborts_before_mutation (tr : Transport)
    (conversation : List Turn) :
    call_gemini_api false false tr conversation
      = ⟨conversation, some "API: No network!".toList, false, none⟩ := by
  simp [call_gemini_api]

/-- C10: submitting an empty string at the prompt leaves the conversation
store unchanged, dispatches no request, and sets the flag so the prompt
reopens on the next loop iteration. -/
theorem empty_submit_is_noop (connected reconnected : Bool) (tr : Transport)
    (conversation : List Turn) :
    mainStep connected reconnected tr (some []) ⟨conversation, true⟩
      = (⟨conversation, true⟩, false) := by
  simp [mainStep]

end ChatAI
